import Mathlib

/-! Verification of the drawing-pad stroke engine.

The development shallowly embeds the Canvas component of the repository:
the Path data model, the smoothed stroke renderer `drawSmoothedPath`, the
pointer-event state machine (`startDrawing` / `draw` / `finishDrawing`),
the imperative control surface (`clear`, `undo`, `getImageData`,
`loadFromHistory`, `loadImage`), and the `handleBeautify` guard of the
application shell.  Coordinates and widths are modelled as rationals,
canvas path commands as an inductive command list. -/

namespace DrawingPad

/-- A 2D coordinate in surface-local pixel space (the `Point` type of the
repository, `{x: number, y: number}`). -/
@[ext]
structure Point where
  x : ℚ
  y : ℚ
  deriving DecidableEq

/-- Midpoint of two points, as computed inside the smoothing loop of
`drawSmoothedPath` (`xc = (points[i].x + points[i+1].x) / 2`, same for y). -/
def midpoint (a b : Point) : Point :=
  ⟨(a.x + b.x) / 2, (a.y + b.y) / 2⟩

/-- Evaluation of a quadratic Bezier curve with start `s`, control `c` and
endpoint `e` at parameter `t` — the curve that the canvas primitive
`quadraticCurveTo(c, e)` draws from the current cursor position `s`. -/
def quadBezier (s c e : Point) (t : ℚ) : Point :=
  ⟨(1 - t) ^ 2 * s.x + 2 * t * (1 - t) * c.x + t ^ 2 * e.x,
   (1 - t) ^ 2 * s.y + 2 * t * (1 - t) * c.y + t ^ 2 * e.y⟩

/-- A freehand stroke (the `Path` type of the repository): ordered sampled
points plus the stroke style captured at stroke start. -/
@[ext]
structure Path where
  points : List Point
  color : String
  strokeWidth : ℚ
  deriving DecidableEq

/-- A canvas path command issued by the renderer: `moveTo`, `lineTo` or
`quadraticCurveTo` (control point first, endpoint second). -/
inductive PathCmd where
  | moveTo (p : Point)
  | lineTo (p : Point)
  | quadTo (c e : Point)
  deriving DecidableEq

/-- The full effect of rendering one stroke: the style state set on the
context (`strokeStyle`, `lineWidth`, `lineCap`, `lineJoin`) and the list of
path commands issued between `beginPath` and `stroke`. -/
structure StrokeRender where
  color : String
  width : ℚ
  cap : String
  join : String
  cmds : List PathCmd
  deriving DecidableEq

/-- Indexing into the point list, mirroring `points[i]` in the source
(indices used by the source are always in bounds, so the default is
irrelevant). -/
def ptAt (ps : List Point) (i : Nat) : Point :=
  ps.getD i ⟨0, 0⟩

/-- Path commands issued by `drawSmoothedPath` (part_000, lines 23-55):
empty input issues nothing; one point becomes `moveTo` plus a zero-length
`lineTo`; two points a straight `lineTo`; three or more points a
`moveTo` to the first point, then for each loop index `i` from 1 while
`i < length - 2` a quadratic curve with control `points[i]` and endpoint
the midpoint of `points[i]` and `points[i+1]`, then one final quadratic
curve with control `points[length-2]` and endpoint `points[length-1]`. -/
def smoothedCmds (ps : List Point) : List PathCmd :=
  if ps.length = 0 then []
  else
    PathCmd.moveTo (ptAt ps 0) ::
      (if ps.length < 3 then
        if 1 < ps.length then [PathCmd.lineTo (ptAt ps 1)]
        else [PathCmd.lineTo (ptAt ps 0)]
      else
        ((List.range (ps.length - 3)).map (fun k =>
          PathCmd.quadTo (ptAt ps (k + 1))
            (midpoint (ptAt ps (k + 1)) (ptAt ps (k + 2))))) ++
          [PathCmd.quadTo (ptAt ps (ps.length - 2)) (ptAt ps (ps.length - 1))])

/-- The stroke renderer `drawSmoothedPath` of part_000: sets the style
from the path (line cap and join always round) and issues the smoothed
command list for the points. -/
def drawSmoothedPath (path : Path) : StrokeRender :=
  { color := path.color
    width := path.strokeWidth
    cap := "round"
    join := "round"
    cmds := smoothedCmds path.points }

/-- The curve pieces traced by a command list, as triples
(start, control, endpoint), tracking the canvas cursor: `moveTo` moves the
cursor, `lineTo` is a straight piece, `quadTo` a quadratic Bezier piece. -/
def piecesFrom (cur : Point) : List PathCmd → List (Point × Point × Point)
  | [] => []
  | PathCmd.moveTo p :: rest => piecesFrom p rest
  | PathCmd.lineTo p :: rest => (cur, p, p) :: piecesFrom p rest
  | PathCmd.quadTo c e :: rest => (cur, c, e) :: piecesFrom e rest

/-- Curve pieces of a command list starting from an arbitrary cursor (every
command list emitted by the renderer starts with `moveTo`, which overwrites
the initial cursor). -/
def pieces (cmds : List PathCmd) : List (Point × Point × Point) :=
  piecesFrom ⟨0, 0⟩ cmds

/-- The state owned by the Canvas component: the `isDrawing` flag, the
committed stroke `history`, and the nullable in-progress `currentPath`. -/
@[ext]
structure CanvasState where
  isDrawing : Bool
  history : List Path
  currentPath : Option Path
  deriving DecidableEq

/-- Events driving the Canvas component.  `down`, `move` carry the resolved
coordinate of `getCoordinates` (`none` when no coordinate resolves);
`down` also carries the current stroke style props.  `up` covers mouseup,
mouseleave and touchend, which all invoke `finishDrawing`.
`loadFromHistory` is the replace-history operation, `imageLoaded` the
onload callback of `loadImage`. -/
inductive Ev where
  | down (c : Option Point) (color : String) (width : ℚ)
  | move (c : Option Point)
  | up
  | clear
  | undo
  | loadFromHistory (paths : List Path)
  | imageLoaded
  deriving DecidableEq

/-- One transition of the Canvas component, mirroring the handlers of
part_000: `startDrawing` (returns unchanged when no coordinate resolves,
otherwise sets the drawing flag and seeds a one-point path with the current
style), `draw` (returns unchanged unless drawing with a resolved coordinate
and a non-null current path, otherwise appends the point), `finishDrawing`
(returns unchanged unless drawing with a non-null current path, otherwise
clears the flag, commits the path to history only when it has more than one
point, and nulls the current path), `clear`, `undo` (`slice(0, -1)` is
`dropLast`), `loadFromHistory` and the `loadImage` onload callback. -/
def step (s : CanvasState) : Ev → CanvasState
  | Ev.down c col w =>
    match c with
    | none => s
    | some pt =>
      { s with isDrawing := true
               currentPath := some { points := [pt], color := col, strokeWidth := w } }
  | Ev.move c =>
    if s.isDrawing then
      match c, s.currentPath with
      | some pt, some p =>
        { s with currentPath := some { p with points := p.points ++ [pt] } }
      | _, _ => s
    else s
  | Ev.up =>
    if s.isDrawing then
      match s.currentPath with
      | some p =>
        { isDrawing := false
          history := if 1 < p.points.length then s.history ++ [p] else s.history
          currentPath := none }
      | none => s
    else s
  | Ev.clear => { s with history := [], currentPath := none }
  | Ev.undo => { s with history := s.history.dropLast, currentPath := none }
  | Ev.loadFromHistory paths => { s with history := paths, currentPath := none }
  | Ev.imageLoaded => { s with history := [], currentPath := none }

/-- Run a sequence of events through the Canvas state machine. -/
def run (s : CanvasState) (evs : List Ev) : CanvasState :=
  evs.foldl step s

/-- The event sequence of one full stroke: a pointer-down that resolves a
coordinate, one resolving pointer-move per sample, and a pointer-up. -/
def strokeEvents (c0 : Point) (col : String) (w : ℚ) (moves : List Point) : List Ev :=
  [Ev.down (some c0) col w] ++ (moves.map (fun m => Ev.move (some m))) ++ [Ev.up]

/-- The export produced by `getImageData` (part_000, lines 187-205): a
temporary canvas of the live canvas dimensions, filled with the background
color, onto which only the committed history paths are rendered with
`drawSmoothedPath`.  The in-progress path is not consulted. -/
structure ExportImage where
  width : ℚ
  height : ℚ
  background : String
  strokes : List StrokeRender
  deriving DecidableEq

/-- Model of `getImageData`: background fill followed by the smoothed
render of each history path, in order. -/
def getImageData (width height : ℚ) (canvasColor : String) (s : CanvasState) : ExportImage :=
  { width := width
    height := height
    background := canvasColor
    strokes := s.history.map drawSmoothedPath }

/-- The history invariant stated by the spec: every persisted path has at
least two points. -/
def historyOK (paths : List Path) : Prop :=
  ∀ p ∈ paths, 2 ≤ p.points.length

/-- Outcome of one `handleBeautify` invocation: the resulting canvas
state, the surfaced error (if any), and whether the remote enhancement
service was called. -/
structure BeautifyResult where
  state : CanvasState
  error : Option String
  networkCalled : Bool
  deriving DecidableEq

/-- Model of `handleBeautify` (App.tsx): the exported image data is checked
by the minimum-size heuristic `imageData.length < 100`; when it trips, a
validation error is surfaced and the function returns before calling
`beautifyDrawing`.  Otherwise the service is called; on success its image
is applied through `loadImage` (whose onload clears history and the current
path), on failure the error message is surfaced and the canvas state is
left alone. -/
def handleBeautify (s : CanvasState) (imageData : String)
    (service : Except String String) : BeautifyResult :=
  if imageData.length < 100 then
    { state := s
      error := some "Canvas is empty. Please draw something first."
      networkCalled := false }
  else
    match service with
    | Except.ok _ =>
      { state := { s with history := [], currentPath := none }
        error := none
        networkCalled := true }
    | Except.error e =>
      { state := s, error := some e, networkCalled := true }

/-- Folding resolving move events over a drawing state with a non-null
current path keeps the flag and history, and appends the moves in order. -/
theorem run_moves_aux (moves : List Point) : ∀ (s : CanvasState) (p : Path),
    s.isDrawing = true → s.currentPath = some p →
    ((moves.map (fun m => Ev.move (some m))).foldl step s).isDrawing = true ∧
    ((moves.map (fun m => Ev.move (some m))).foldl step s).history = s.history ∧
    ((moves.map (fun m => Ev.move (some m))).foldl step s).currentPath =
      some { points := p.points ++ moves, color := p.color, strokeWidth := p.strokeWidth } := by
  induction moves with
  | nil =>
    intro s p hD hP
    refine ⟨hD, rfl, ?_⟩
    simpa using hP
  | cons m ms ih =>
    intro s p hD hP
    have hstep : step s (Ev.move (some m)) =
        { s with currentPath := some { p with points := p.points ++ [m] } } := by
      simp [step, hD, hP]
    simp only [List.map_cons, List.foldl_cons, hstep]
    obtain ⟨h1, h2, h3⟩ := ih { s with currentPath := some { p with points := p.points ++ [m] } }
      { p with points := p.points ++ [m] } (by simpa using hD) rfl
    refine ⟨h1, by simpa using h2, ?_⟩
    simpa using h3

/-- Running one full stroke from any state ends not drawing, with the
current path nulled, and the history extended by the sampled path exactly
when there was at least one move. -/
theorem run_strokeEvents (s : CanvasState) (c0 : Point) (col : String) (w : ℚ)
    (moves : List Point) :
    (run s (strokeEvents c0 col w moves)).isDrawing = false ∧
    (run s (strokeEvents c0 col w moves)).history =
      (if moves = [] then s.history
       else s.history ++ [{ points := c0 :: moves, color := col, strokeWidth := w }]) ∧
    (run s (strokeEvents c0 col w moves)).currentPath = none := by
  have hdown : step s (Ev.down (some c0) col w) =
      { s with isDrawing := true
               currentPath := some { points := [c0], color := col, strokeWidth := w } } := by
    simp [step]
  obtain ⟨h1, h2, h3⟩ := run_moves_aux moves
    { s with isDrawing := true
             currentPath := some { points := [c0], color := col, strokeWidth := w } }
    { points := [c0], color := col, strokeWidth := w } (by simp) rfl
  unfold run strokeEvents
  rw [List.foldl_append, List.foldl_append]
  simp only [List.foldl_cons, List.foldl_nil, hdown]
  have hup : step ((moves.map (fun m => Ev.move (some m))).foldl step
      { s with isDrawing := true
               currentPath := some { points := [c0], color := col, strokeWidth := w } }) Ev.up =
      { isDrawing := false
        history := if 1 < (([c0] : List Point) ++ moves).length then
            s.history ++ [{ points := [c0] ++ moves, color := col, strokeWidth := w }]
          else s.history
        currentPath := none } := by
    simp [step, h1, h3, h2]
  rw [hup]
  cases moves with
  | nil => simp
  | cons m ms => simp [Nat.succ_lt_succ]

/-- C1: for every path with at least 3 points, the renderer issues a
`moveTo` to the first point, then for each interior index i from 1 to
length-3 one quadratic curve with control point i and endpoint the
midpoint of points i and i+1, then one final quadratic curve with the
second-to-last point as control and the last point as endpoint; in
particular a four-point path [P0, P1, P2, P3] yields exactly two quadratic
pieces whose drawn curve passes exactly through P0, the midpoint of
(P1, P2) and P3, with P1 then P2 as control points. -/
theorem drawSmoothedPath_commands (path : Path) (h : 3 ≤ path.points.length) :
    (drawSmoothedPath path).cmds =
      PathCmd.moveTo (ptAt path.points 0) ::
        (((List.range (path.points.length - 3)).map (fun k =>
          PathCmd.quadTo (ptAt path.points (k + 1))
            (midpoint (ptAt path.points (k + 1)) (ptAt path.points (k + 2))))) ++
          [PathCmd.quadTo (ptAt path.points (path.points.length - 2))
            (ptAt path.points (path.points.length - 1))]) ∧
    ∀ (P0 P1 P2 P3 : Point) (col : String) (w : ℚ),
      pieces (drawSmoothedPath
          { points := [P0, P1, P2, P3], color := col, strokeWidth := w }).cmds =
        [(P0, P1, midpoint P1 P2), (midpoint P1 P2, P2, P3)] ∧
      quadBezier P0 P1 (midpoint P1 P2) 0 = P0 ∧
      quadBezier P0 P1 (midpoint P1 P2) 1 = midpoint P1 P2 ∧
      quadBezier (midpoint P1 P2) P2 P3 0 = midpoint P1 P2 ∧
      quadBezier (midpoint P1 P2) P2 P3 1 = P3 := by
  constructor
  · have h0 : ¬ path.points.length = 0 := by omega
    have h3 : ¬ path.points.length < 3 := by omega
    simp [drawSmoothedPath, smoothedCmds, h0, h3]
  · intro P0 P1 P2 P3 col w
    refine ⟨?_, ?_, ?_, ?_, ?_⟩
    · simp [drawSmoothedPath, smoothedCmds, ptAt, pieces, piecesFrom, List.range_succ]
    · apply Point.ext <;> norm_num [quadBezier]
    · apply Point.ext <;> norm_num [quadBezier]
    · apply Point.ext <;> norm_num [quadBezier]
    · apply Point.ext <;> norm_num [quadBezier]

/-- Witness for C1 at a concrete four-point path. -/
theorem drawSmoothedPath_commands_witness :
    (drawSmoothedPath { points := [⟨0, 0⟩, ⟨4, 0⟩, ⟨4, 4⟩, ⟨0, 4⟩]
                        color := "#FFFFFF"
                        strokeWidth := 5 }).cmds =
      [PathCmd.moveTo ⟨0, 0⟩, PathCmd.quadTo ⟨4, 0⟩ ⟨4, 2⟩,
        PathCmd.quadTo ⟨4, 4⟩ ⟨0, 4⟩] := by
  have h := (drawSmoothedPath_commands
    { points := [⟨0, 0⟩, ⟨4, 0⟩, ⟨4, 4⟩, ⟨0, 4⟩], color := "#FFFFFF", strokeWidth := 5 }
    (by decide)).1
  rw [h]
  norm_num [ptAt, midpoint, List.range_succ]

/-- C2: from any state, a pointer-down that resolves a coordinate, N
resolving pointer-moves and a pointer-up append exactly one path with the
N+1 sampled points to the end of history when N is at least 1, leave the
history unchanged when N is 0, and in both cases leave the in-progress
path null. -/
theorem stroke_capture_commit (s : CanvasState) (c0 : Point) (col : String) (w : ℚ)
    (moves : List Point) :
    (moves ≠ [] →
      (run s (strokeEvents c0 col w moves)).history =
        s.history ++ [{ points := c0 :: moves, color := col, strokeWidth := w }]) ∧
    (moves = [] → (run s (strokeEvents c0 col w moves)).history = s.history) ∧
    (run s (strokeEvents c0 col w moves)).currentPath = none := by
  obtain ⟨h1, h2, h3⟩ := run_strokeEvents s c0 col w moves
  refine ⟨?_, ?_, h3⟩
  · intro hne; rw [h2, if_neg hne]
  · intro he; rw [h2, if_pos he]

/-- Witness for C2 at a concrete one-move stroke from the idle empty
state. -/
theorem stroke_capture_commit_witness :
    (run { isDrawing := false, history := [], currentPath := none }
        (strokeEvents ⟨0, 0⟩ "#FFFFFF" 5 [⟨1, 1⟩])).history =
      [{ points := [⟨0, 0⟩, ⟨1, 1⟩], color := "#FFFFFF", strokeWidth := 5 }] ∧
    (run { isDrawing := false, history := [], currentPath := none }
        (strokeEvents ⟨0, 0⟩ "#FFFFFF" 5 [⟨1, 1⟩])).currentPath = none := by
  obtain ⟨h1, h2, h3⟩ := stroke_capture_commit
    { isDrawing := false, history := [], currentPath := none } ⟨0, 0⟩ "#FFFFFF" 5 [⟨1, 1⟩]
  exact ⟨by simpa using h1 (by simp), h3⟩

/-- C3: undo truncates the history by exactly its last element (leaving
every preceding path untouched), is a no-op on an empty history, and in
both cases nulls the in-progress path. -/
theorem undo_spec (s : CanvasState) :
    (step s Ev.undo).history = s.history.dropLast ∧
    (∀ (ps : List Path) (p : Path), s.history = ps ++ [p] →
      (step s Ev.undo).history = ps) ∧
    (s.history = [] → (step s Ev.undo).history = s.history) ∧
    (step s Ev.undo).currentPath = none := by
  refine ⟨by simp [step], ?_, ?_, by simp [step]⟩
  · intro ps p hp; simp [step, hp]
  · intro he; simp [step, he]

/-- Witness for C3 at a concrete one-element history. -/
theorem undo_spec_witness :
    (step { isDrawing := false
            history := [{ points := [⟨0, 0⟩, ⟨1, 1⟩], color := "#FFFFFF", strokeWidth := 5 }]
            currentPath := none } Ev.undo).history = [] :=
  (undo_spec { isDrawing := false
               history := [{ points := [⟨0, 0⟩, ⟨1, 1⟩], color := "#FFFFFF", strokeWidth := 5 }]
               currentPath := none }).2.1 []
    { points := [⟨0, 0⟩, ⟨1, 1⟩], color := "#FFFFFF", strokeWidth := 5 } (by simp)

/-- C4: clear always results in an empty history and a null in-progress
path, regardless of the prior state. -/
theorem clear_spec (s : CanvasState) :
    (step s Ev.clear).history = [] ∧ (step s Ev.clear).currentPath = none := by
  simp [step]

/-- C5: the export does not depend on the in-progress path: starting a
stroke leaves the export unchanged even though the in-progress path is now
non-null, and the export is a function of the committed history alone
(composited over the background color). -/
theorem export_excludes_inprogress (w h : ℚ) (bg : String) (s : CanvasState)
    (c : Point) (col : String) (sw : ℚ) :
    getImageData w h bg (step s (Ev.down (some c) col sw)) = getImageData w h bg s ∧
    (step s (Ev.down (some c) col sw)).currentPath =
      some { points := [c], color := col, strokeWidth := sw } ∧
    ∀ t : CanvasState, s.history = t.history →
      getImageData w h bg s = getImageData w h bg t := by
  refine ⟨by simp [getImageData, step], by simp [step], ?_⟩
  intro t hh
  simp [getImageData, hh]

/-- Witness for C5: exporting after a pointer-down equals exporting
before, at a concrete state. -/
theorem export_excludes_inprogress_witness :
    getImageData 100 100 "#1e293b"
        (step { isDrawing := false, history := [], currentPath := none }
          (Ev.down (some ⟨0, 0⟩) "#FFFFFF" 5)) =
      getImageData 100 100 "#1e293b"
        { isDrawing := false, history := [], currentPath := none } ∧
    getImageData 100 100 "#1e293b" { isDrawing := false, history := [], currentPath := none } =
      getImageData 100 100 "#1e293b" { isDrawing := true, history := [], currentPath := none } := by
  obtain ⟨h1, h2, h3⟩ := export_excludes_inprogress 100 100 "#1e293b"
    { isDrawing := false, history := [], currentPath := none } ⟨0, 0⟩ "#FFFFFF" 5
  exact ⟨h1, h3 { isDrawing := true, history := [], currentPath := none } rfl⟩

/-- Counterexample for C6: replace-history performs no validation, so
loading a history containing a single-point path stores a path with fewer
than 2 points, refuting the claim that every operation on history
(including replaceHistory) preserves the invariant. -/
theorem replaceHistory_breaks_invariant :
    historyOK ((CanvasState.mk false [] none).history) ∧
    ¬ historyOK ((step (CanvasState.mk false [] none)
        (Ev.loadFromHistory
          [{ points := [⟨0, 0⟩], color := "#FFFFFF", strokeWidth := 5 }])).history) := by
  constructor
  · intro p hp; simp at hp
  · intro hOK
    have h2 := hOK { points := [⟨0, 0⟩], color := "#FFFFFF", strokeWidth := 5 }
      (by simp [step])
    norm_num at h2

/-- C6 amended: the commit transition never appends a path with fewer
than 2 points, and every operation preserves the at-least-two-points
history invariant, provided that the argument of replaceHistory itself
satisfies it. -/
theorem historyOK_preserved (s : CanvasState) (ev : Ev) (hs : historyOK s.history)
    (hev : ∀ paths, ev = Ev.loadFromHistory paths → historyOK paths) :
    historyOK ((step s ev).history) := by
  cases ev with
  | down c col w =>
    cases c with
    | none => simpa [step] using hs
    | some pt => simpa [step] using hs
  | move c =>
    have hh : (step s (Ev.move c)).history = s.history := by
      by_cases hd : s.isDrawing = true
      · cases c with
        | none => simp [step, hd]
        | some pt =>
          cases hcp : s.currentPath with
          | none => simp [step, hd, hcp]
          | some p => simp [step, hd, hcp]
      · simp [step, hd]
    rw [hh]; exact hs
  | up =>
    by_cases hd : s.isDrawing = true
    · cases hcp : s.currentPath with
      | none => simpa [step, hd, hcp] using hs
      | some p =>
        intro q hq
        simp only [step, hd, hcp, if_true] at hq
        by_cases hl : 1 < p.points.length
        · rw [if_pos hl] at hq
          rcases List.mem_append.mp hq with h1 | h1
          · exact hs q h1
          · simp at h1; subst h1; omega
        · rw [if_neg hl] at hq; exact hs q hq
    · simpa [step, hd] using hs
  | clear => intro q hq; simp [step] at hq
  | undo =>
    intro q hq
    simp only [step] at hq
    exact hs q ((List.dropLast_sublist s.history).subset hq)
  | loadFromHistory paths =>
    have hp := hev paths rfl
    simpa [step] using hp
  | imageLoaded => intro q hq; simp [step] at hq

/-- Witness for the amended C6 at a concrete state and operation. -/
theorem historyOK_preserved_witness :
    historyOK ((step { isDrawing := false, history := [], currentPath := none }
        Ev.clear).history) :=
  historyOK_preserved { isDrawing := false, history := [], currentPath := none } Ev.clear
    (by intro p hp; simp at hp)
    (by intro paths hp; simp at hp)

/-- C7: when the minimum-size heuristic judges the exported canvas blank
(data shorter than 100 characters), a validation error is surfaced, the
remote enhancement service is not called, and the canvas state (hence the
history) is unchanged. -/
theorem blank_guard_no_network (s : CanvasState) (imageData : String)
    (svc : Except String String) (hd : imageData.length < 100) :
    (handleBeautify s imageData svc).error =
      some "Canvas is empty. Please draw something first." ∧
    (handleBeautify s imageData svc).networkCalled = false ∧
    (handleBeautify s imageData svc).state = s := by
  simp [handleBeautify, hd]

/-- Witness for C7 at the empty image string. -/
theorem blank_guard_no_network_witness :
    (handleBeautify { isDrawing := false, history := [], currentPath := none } ""
        (Except.ok "x")).networkCalled = false :=
  (blank_guard_no_network { isDrawing := false, history := [], currentPath := none } ""
    (Except.ok "x") (by decide)).2.1

/-- C8: when the image load completes, the history becomes empty and the
in-progress path null, so a subsequent undo leaves the history as it is. -/
theorem imageLoaded_clears_history (s : CanvasState) :
    (step s Ev.imageLoaded).history = [] ∧
    (step s Ev.imageLoaded).currentPath = none ∧
    (step (step s Ev.imageLoaded) Ev.undo).history =
      (step s Ev.imageLoaded).history := by
  refine ⟨by simp [step], by simp [step], by simp [step]⟩

/-- C9: the style of an in-progress path is captured once at pointer-down;
every pointer-move appends exactly one point and leaves color, stroke
width and the history untouched, and any sequence of moves preserves the
captured style. -/
theorem style_fixed_per_stroke (s : CanvasState) (p : Path)
    (hD : s.isDrawing = true) (hP : s.currentPath = some p) :
    (∀ (c0 : Point) (col : String) (w : ℚ),
      (step s (Ev.down (some c0) col w)).currentPath =
        some { points := [c0], color := col, strokeWidth := w }) ∧
    (∀ pt : Point, (step s (Ev.move (some pt))).currentPath =
        some { points := p.points ++ [pt], color := p.color,
               strokeWidth := p.strokeWidth }) ∧
    (∀ pt : Point, (step s (Ev.move (some pt))).history = s.history) ∧
    ∀ moves : List Point,
      ((moves.map (fun m => Ev.move (some m))).foldl step s).currentPath =
        some { points := p.points ++ moves, color := p.color,
               strokeWidth := p.strokeWidth } := by
  refine ⟨by intro c0 col w; simp [step], ?_, ?_, ?_⟩
  · intro pt; simp [step, hD, hP]
  · intro pt; simp [step, hD, hP]
  · intro moves; exact (run_moves_aux moves s p hD hP).2.2

/-- Witness for C9 at a concrete in-progress stroke. -/
theorem style_fixed_per_stroke_witness :
    (step { isDrawing := true
            history := []
            currentPath := some { points := [⟨0, 0⟩], color := "#FFFFFF", strokeWidth := 5 } }
        (Ev.move (some ⟨1, 1⟩))).currentPath =
      some { points := [⟨0, 0⟩, ⟨1, 1⟩], color := "#FFFFFF", strokeWidth := 5 } := by
  have h := (style_fixed_per_stroke
    { isDrawing := true, history := [],
      currentPath := some { points := [⟨0, 0⟩], color := "#FFFFFF", strokeWidth := 5 } }
    { points := [⟨0, 0⟩], color := "#FFFFFF", strokeWidth := 5 } rfl rfl).2.1 ⟨1, 1⟩
  simpa using h

/-- C10: whenever the in-progress path is null, every pointer-move is a
no-op and every pointer-up (also mouseleave and touchend, which share the
same handler) is a no-op; clear and undo produce exactly this situation,
nulling the in-progress path while leaving the drawing flag as it was. -/
theorem null_currentPath_noop (s : CanvasState) (hP : s.currentPath = none) :
    (∀ c : Option Point, step s (Ev.move c) = s) ∧
    step s Ev.up = s ∧
    (step s Ev.clear).currentPath = none ∧
    (step s Ev.clear).isDrawing = s.isDrawing ∧
    (step s Ev.undo).currentPath = none ∧
    (step s Ev.undo).isDrawing = s.isDrawing := by
  refine ⟨?_, ?_, by simp [step], by simp [step], by simp [step], by simp [step]⟩
  · intro c
    by_cases hd : s.isDrawing = true
    · cases c with
      | none => simp [step, hd, hP]
      | some pt => simp [step, hd, hP]
    · simp [step, hd]
  · by_cases hd : s.isDrawing = true
    · simp [step, hd, hP]
    · simp [step, hd]

/-- Witness for C10: a pointer-up with the drawing flag still set but a
null in-progress path changes nothing. -/
theorem null_currentPath_noop_witness :
    step { isDrawing := true, history := [], currentPath := none } Ev.up =
      { isDrawing := true, history := [], currentPath := none } :=
  (null_currentPath_noop { isDrawing := true, history := [], currentPath := none } rfl).2.1

end DrawingPad
